import Mathlib

/-!
Verification of the hudy SDK core: the business-day calculator
(`hudy/utils/business_days.py`, `hudy/utils/date.py`) and the year-keyed
smart cache (`hudy/cache.py`).

Dates are modelled by their proleptic-Gregorian ordinal (the value of
Python's `date.toordinal()`, an integer; ordinal 1 is 0001-01-01, a Monday).
The ordinal/calendar conversions below follow CPython's `_ord2ymd` and
`_ymd2ord` from `datetime.py`, which is what `date.fromordinal`,
`date.year/.month/.day`, `date + timedelta` and `strftime` are built on.
Wall-clock times and TTLs are modelled as integers.
-/

namespace Hudy

/-- CPython `_is_leap`: leap year predicate of the proleptic Gregorian calendar. -/
def isLeap (y : Int) : Bool := decide (y % 4 = 0 ∧ (y % 100 ≠ 0 ∨ y % 400 = 0))

/-- CPython `_DAYS_IN_MONTH` lookup (with the leap-February adjustment). -/
def daysInMonth (leap : Bool) (m : Int) : Int :=
  if m = 2 then (if leap then 29 else 28)
  else if m = 4 ∨ m = 6 ∨ m = 9 ∨ m = 11 then 30
  else 31

/-- CPython `_days_before_month` (cumulative days before month `m`, with leap adjustment). -/
def daysBeforeMonth (leap : Bool) (m : Int) : Int :=
  (if m = 1 then 0 else if m = 2 then 31 else if m = 3 then 59 else if m = 4 then 90
   else if m = 5 then 120 else if m = 6 then 151 else if m = 7 then 181 else if m = 8 then 212
   else if m = 9 then 243 else if m = 10 then 273 else if m = 11 then 304 else 334)
  + (if leap ∧ 2 < m then 1 else 0)

/-- CPython `_days_before_year`: days between 0001-01-01 and January 1 of year `y`. -/
def daysBeforeYear (y : Int) : Int :=
  (y - 1) * 365 + (y - 1) / 4 - (y - 1) / 100 + (y - 1) / 400

/-- CPython `_ymd2ord`: calendar date to ordinal. -/
def ymd2ord (y m d : Int) : Int :=
  daysBeforeYear y + daysBeforeMonth (isLeap y) m + d

/-- CPython `_ord2ymd`: ordinal to calendar date `(year, month, day)`. -/
def ord2ymd (ord : Int) : Int × Int × Int :=
  let n0 := ord - 1
  let n400 := n0 / 146097
  let n := n0 % 146097
  let n100 := n / 36524
  let na := n % 36524
  let n4 := na / 1461
  let nb := na % 1461
  let n1 := nb / 365
  let nc := nb % 365
  let year := n400 * 400 + 1 + n100 * 100 + n4 * 4 + n1
  if n1 = 4 ∨ n100 = 4 then (year - 1, 12, 31)
  else
    let leap := decide (n1 = 3 ∧ (n4 ≠ 24 ∨ n100 = 3))
    let month := (nc + 50) / 32
    let preceding := daysBeforeMonth leap month
    let month' := if preceding > nc then month - 1 else month
    let preceding' := if preceding > nc then preceding - daysInMonth leap month' else preceding
    (year, month', nc - preceding' + 1)

/-- `date.year` of the date with the given ordinal. -/
def pyYear (ord : Int) : Int := (ord2ymd ord).1

/-- `date.weekday()`: 0 = Monday .. 6 = Sunday. -/
def pyWeekday (ord : Int) : Int := (ord + 6) % 7

/-- `add_days` from `hudy/utils/date.py`: `d + timedelta(days=days)`. -/
def add_days (d : Int) (days : Int) : Int := d + days

/-- `is_weekend` from `hudy/utils/date.py`: weekday in (5, 6). -/
def is_weekend (d : Int) : Bool := decide (pyWeekday d = 5 ∨ pyWeekday d = 6)

/-! ### Correctness of the calendar conversion -/

theorem daysBeforeYear_cascade (a b c d : Int)
    (hb : 0 ≤ b ∧ b ≤ 3) (hc : 0 ≤ c ∧ c ≤ 24) (hd : 0 ≤ d ∧ d ≤ 3) :
    daysBeforeYear (400 * a + 100 * b + 4 * c + d + 1) =
      146097 * a + 36524 * b + 1461 * c + 365 * d := by
  unfold daysBeforeYear
  omega

theorem isLeap_cascade (a b c d : Int)
    (hb : 0 ≤ b ∧ b ≤ 3) (hc : 0 ≤ c ∧ c ≤ 24) (hd : 0 ≤ d ∧ d ≤ 3) :
    isLeap (400 * a + 100 * b + 4 * c + d + 1) = decide (d = 3 ∧ (c ≠ 24 ∨ b = 3)) := by
  unfold isLeap
  rw [decide_eq_decide]
  omega

theorem ymd2ord_dec31 (y : Int) :
    ymd2ord y 12 31 = daysBeforeYear y + 365 + (if isLeap y then 1 else 0) := by
  cases h : isLeap y <;> simp [ymd2ord, daysBeforeMonth, h] <;> ring

/-- The month-guess-and-correct step of `_ord2ymd` lands on the month whose
cumulative-days bracket contains `nc`. -/
theorem month_correction (leap : Bool) (nc g p m p2 : Int) (h0 : 0 ≤ nc) (h1 : nc ≤ 364)
    (hg : g = (nc + 50) / 32) (hp : p = daysBeforeMonth leap g)
    (hm : m = if p > nc then g - 1 else g)
    (hp2 : p2 = if p > nc then p - daysInMonth leap m else p) :
    1 ≤ m ∧ m ≤ 12 ∧ p2 = daysBeforeMonth leap m ∧
      daysBeforeMonth leap m ≤ nc ∧ nc < daysBeforeMonth leap m + daysInMonth leap m ∧
      daysInMonth leap m ≤ 31 := by
  have hg1 : 1 ≤ g := by omega
  have hg2 : g ≤ 12 := by omega
  by_cases hcorr : p > nc <;>
    simp only [hcorr, if_true, if_false, reduceIte] at hm hp2 <;>
    interval_cases g <;>
    subst hm <;> cases leap <;>
    norm_num [daysBeforeMonth, daysInMonth] at hp hp2 ⊢ <;> omega

/-- `_ymd2ord` is a left inverse of `_ord2ymd`: the calendar conversion is correct. -/
theorem ymd2ord_ord2ymd (ord y m d : Int) (h : ord2ymd ord = (y, m, d)) :
    ymd2ord y m d = ord := by
  simp only [ord2ymd] at h
  generalize h400 : (ord - 1) / 146097 = n400 at h
  generalize hn : (ord - 1) % 146097 = n at h
  generalize h100 : n / 36524 = n100 at h
  generalize hna : n % 36524 = na at h
  generalize h4 : na / 1461 = n4 at h
  generalize hnb : na % 1461 = nb at h
  generalize h1 : nb / 365 = n1 at h
  generalize hnc : nb % 365 = nc at h
  split at h
  · rename_i hsp
    injection h with hy h2
    injection h2 with hm hd
    subst hy hm hd
    rw [ymd2ord_dec31]
    rcases hsp with hc | hc
    · rw [show n400 * 400 + 1 + n100 * 100 + n4 * 4 + n1 - 1
            = 400 * n400 + 100 * n100 + 4 * n4 + 3 + 1 from by omega]
      rw [daysBeforeYear_cascade n400 n100 n4 3 (by omega) (by omega) (by omega)]
      rw [isLeap_cascade n400 n100 n4 3 (by omega) (by omega) (by omega)]
      split_ifs with hL
      · rw [decide_eq_true_iff] at hL
        omega
      · rw [Bool.not_eq_true, decide_eq_false_iff_not] at hL
        omega
    · rw [show n400 * 400 + 1 + n100 * 100 + n4 * 4 + n1 - 1
            = 400 * n400 + 100 * 3 + 4 * 24 + 3 + 1 from by omega]
      rw [daysBeforeYear_cascade n400 3 24 3 (by omega) (by omega) (by omega)]
      rw [isLeap_cascade n400 3 24 3 (by omega) (by omega) (by omega)]
      rw [if_pos (show (decide ((3:Int) = 3 ∧ ((24:Int) ≠ 24 ∨ (3:Int) = 3))) = true from by decide)]
      omega
  · rename_i hsp
    injection h with hy h2
    injection h2 with hm hd
    subst hy hm hd
    have h0 : (0:Int) ≤ nc := by omega
    have h364 : nc ≤ 364 := by omega
    obtain ⟨-, -, hpeq, -, -⟩ :=
      month_correction (decide (n1 = 3 ∧ (n4 ≠ 24 ∨ n100 = 3))) nc _ _ _ _ h0 h364
        rfl rfl rfl rfl
    rw [hpeq]
    unfold ymd2ord
    have hleap : isLeap (n400 * 400 + 1 + n100 * 100 + n4 * 4 + n1)
        = decide (n1 = 3 ∧ (n4 ≠ 24 ∨ n100 = 3)) := by
      unfold isLeap
      rw [decide_eq_decide]
      omega
    rw [hleap]
    rw [show n400 * 400 + 1 + n100 * 100 + n4 * 4 + n1
          = 400 * n400 + 100 * n100 + 4 * n4 + n1 + 1 from by ring]
    rw [daysBeforeYear_cascade n400 n100 n4 n1 (by omega) (by omega) (by omega)]
    omega

theorem ord2ymd_injective (a b : Int) (h : ord2ymd a = ord2ymd b) : a = b := by
  have ha := ymd2ord_ord2ymd a (ord2ymd a).1 (ord2ymd a).2.1 (ord2ymd a).2.2 rfl
  have hb := ymd2ord_ord2ymd b (ord2ymd b).1 (ord2ymd b).2.1 (ord2ymd b).2.2 rfl
  rw [h] at ha
  exact ha.symm.trans hb

/-- Month and day components produced by `_ord2ymd` are in calendar range. -/
theorem ord2ymd_bounds (ord y m d : Int) (h : ord2ymd ord = (y, m, d)) :
    1 ≤ m ∧ m ≤ 12 ∧ 1 ≤ d ∧ d ≤ 31 := by
  simp only [ord2ymd] at h
  generalize h400 : (ord - 1) / 146097 = n400 at h
  generalize hn : (ord - 1) % 146097 = n at h
  generalize h100 : n / 36524 = n100 at h
  generalize hna : n % 36524 = na at h
  generalize h4 : na / 1461 = n4 at h
  generalize hnb : na % 1461 = nb at h
  generalize h1 : nb / 365 = n1 at h
  generalize hnc : nb % 365 = nc at h
  split at h
  · injection h with hy h2
    injection h2 with hm hd
    omega
  · injection h with hy h2
    injection h2 with hm hd
    subst hm hd
    have h0 : (0:Int) ≤ nc := by omega
    have h364 : nc ≤ 364 := by omega
    obtain ⟨hm1, hm2, hpeq, hple, hplt, hdim⟩ :=
      month_correction (decide (n1 = 3 ∧ (n4 ≠ 24 ∨ n100 = 3))) nc _ _ _ _ h0 h364
        rfl rfl rfl rfl
    rw [hpeq]
    refine ⟨hm1, hm2, by omega, by omega⟩

/-! ### Decimal rendering (CPython integer formatting and strftime zero padding) -/

/-- The character of a single decimal digit. -/
def digitChar (n : Nat) : Char := Char.ofNat (48 + n)

/-- Fuelled digit accumulator: decimal digits of `n`, most significant first. -/
def natDigitsAux : Nat → Nat → List Char
  | 0, _ => []
  | f + 1, n => if n < 10 then [digitChar n] else natDigitsAux f (n / 10) ++ [digitChar (n % 10)]

/-- Decimal digits of `n`, most significant first (no leading zeros). -/
def natDigits (n : Nat) : List Char := natDigitsAux (n + 1) n

/-- Left-pad a digit string with `'0'` to width `w`. -/
def padZeros (w : Nat) (cs : List Char) : List Char := List.replicate (w - cs.length) '0' ++ cs

/-- Decimal value of a digit string; inverse of the rendering above. -/
def digitsVal (cs : List Char) : Nat := cs.foldl (fun a c => 10 * a + (c.toNat - 48)) 0

theorem digitChar_toNat (k : Nat) (h : k < 10) : (digitChar k).toNat = 48 + k := by
  interval_cases k <;> rfl

theorem digitsVal_append_singleton (xs : List Char) (c : Char) :
    digitsVal (xs ++ [c]) = 10 * digitsVal xs + (c.toNat - 48) := by
  unfold digitsVal
  rw [List.foldl_append]
  rfl

theorem natDigitsAux_val (f : Nat) : ∀ n, n < f → digitsVal (natDigitsAux f n) = n := by
  induction f with
  | zero => intro n h; omega
  | succ f ih =>
    intro n h
    unfold natDigitsAux
    split
    · rename_i h10
      unfold digitsVal
      rw [List.foldl_cons]
      simp only [List.foldl_nil]
      rw [digitChar_toNat n h10]
      omega
    · rename_i h10
      rw [digitsVal_append_singleton, ih (n / 10) (by omega), digitChar_toNat (n % 10) (by omega)]
      omega

theorem natDigits_val (n : Nat) : digitsVal (natDigits n) = n :=
  natDigitsAux_val (n + 1) n (by omega)

theorem digitsVal_padZeros (w : Nat) (cs : List Char) :
    digitsVal (padZeros w cs) = digitsVal cs := by
  unfold padZeros
  generalize w - cs.length = j
  induction j with
  | zero => rw [List.replicate_zero, List.nil_append]
  | succ j ih =>
    rw [List.replicate_succ, List.cons_append]
    unfold digitsVal
    rw [List.foldl_cons]
    have h0 : (10 * 0 + ('0'.toNat - 48)) = 0 := by decide
    rw [h0]
    exact ih

theorem natDigitsAux_digit (f : Nat) :
    ∀ n c, c ∈ natDigitsAux f n → 48 ≤ c.toNat ∧ c.toNat ≤ 57 := by
  induction f with
  | zero => intro n c h; simp [natDigitsAux] at h
  | succ f ih =>
    intro n c h
    unfold natDigitsAux at h
    split at h
    · rename_i h10
      rw [List.mem_singleton] at h
      subst h
      rw [digitChar_toNat n h10]
      omega
    · rcases List.mem_append.mp h with h' | h'
      · exact ih _ c h'
      · rw [List.mem_singleton] at h'
        subst h'
        rw [digitChar_toNat (n % 10) (by omega)]
        omega

theorem padZeros_natDigits_digit (w : Nat) (n : Nat) (c : Char)
    (h : c ∈ padZeros w (natDigits n)) : 48 ≤ c.toNat ∧ c.toNat ≤ 57 := by
  unfold padZeros at h
  rcases List.mem_append.mp h with h' | h'
  · rw [List.eq_of_mem_replicate h']
    decide
  · exact natDigitsAux_digit _ _ c h'

theorem natDigitsAux_len1 (f : Nat) (n : Nat) (hf : 0 < f) (h : n < 10) :
    (natDigitsAux f n).length = 1 := by
  cases f with
  | zero => omega
  | succ f => simp [natDigitsAux, h]

theorem natDigitsAux_len2 (f : Nat) : ∀ n, n < f → n < 100 → (natDigitsAux f n).length ≤ 2 := by
  induction f with
  | zero => intro n h _; omega
  | succ f ih =>
    intro n h h100
    unfold natDigitsAux
    split
    · simp
    · rename_i h10
      rw [List.length_append]
      rw [natDigitsAux_len1 f (n / 10) (by omega) (by omega)]
      simp

theorem natDigits_len2 (n : Nat) (h : n < 100) : (natDigits n).length ≤ 2 :=
  natDigitsAux_len2 (n + 1) n (by omega) h

/-- Two-digit zero-padded rendering, as in strftime `%m` / `%d`. -/
def pad2 (v : Int) : List Char := padZeros 2 (natDigits v.toNat)

/-- strftime `%Y`: the year, zero-padded to width 4. -/
def yearChars (y : Int) : List Char :=
  if y < 0 then '-' :: padZeros 4 (natDigits (-y).toNat) else padZeros 4 (natDigits y.toNat)

/-- Character list of `d.strftime("%Y-%m-%d")`. -/
def fmtYmd (y m d : Int) : List Char :=
  yearChars y ++ '-' :: (pad2 m ++ '-' :: pad2 d)

/-- `format_date` from `hudy/utils/date.py`: `d.strftime("%Y-%m-%d")`. -/
def format_date (ord : Int) : String :=
  String.mk (fmtYmd (ord2ymd ord).1 (ord2ymd ord).2.1 (ord2ymd ord).2.2)

theorem pad2_val (v : Int) : digitsVal (pad2 v) = v.toNat := by
  unfold pad2
  rw [digitsVal_padZeros, natDigits_val]

theorem pad2_length (v : Int) (h : v.toNat < 100) : (pad2 v).length = 2 := by
  unfold pad2 padZeros
  rw [List.length_append, List.length_replicate]
  have h2 := natDigits_len2 v.toNat h
  omega

theorem yearChars_inj (y1 y2 : Int) (h : yearChars y1 = yearChars y2) : y1 = y2 := by
  unfold yearChars at h
  split_ifs at h with hs1 hs2 hs2
  · injection h with hhead htail
    have := congrArg digitsVal htail
    rw [digitsVal_padZeros, digitsVal_padZeros, natDigits_val, natDigits_val] at this
    omega
  · exfalso
    have hmem : '-' ∈ padZeros 4 (natDigits y2.toNat) := by
      rw [← h]; exact List.mem_cons_self _ _
    have := padZeros_natDigits_digit 4 y2.toNat '-' hmem
    revert this; decide
  · exfalso
    have hmem : '-' ∈ padZeros 4 (natDigits y1.toNat) := by
      rw [h]; exact List.mem_cons_self _ _
    have := padZeros_natDigits_digit 4 y1.toNat '-' hmem
    revert this; decide
  · have := congrArg digitsVal h
    rw [digitsVal_padZeros, digitsVal_padZeros, natDigits_val, natDigits_val] at this
    omega

theorem fmtYmd_inj (y1 m1 d1 y2 m2 d2 : Int)
    (hm1 : 1 ≤ m1 ∧ m1 ≤ 12) (hd1 : 1 ≤ d1 ∧ d1 ≤ 31)
    (hm2 : 1 ≤ m2 ∧ m2 ≤ 12) (hd2 : 1 ≤ d2 ∧ d2 ≤ 31)
    (h : fmtYmd y1 m1 d1 = fmtYmd y2 m2 d2) : y1 = y2 ∧ m1 = m2 ∧ d1 = d2 := by
  have hlm1 : (pad2 m1).length = 2 := pad2_length m1 (by omega)
  have hlm2 : (pad2 m2).length = 2 := pad2_length m2 (by omega)
  have hld1 : (pad2 d1).length = 2 := pad2_length d1 (by omega)
  have hld2 : (pad2 d2).length = 2 := pad2_length d2 (by omega)
  unfold fmtYmd at h
  obtain ⟨hY, hR⟩ := List.append_inj' h (by simp [hlm1, hlm2, hld1, hld2])
  refine ⟨yearChars_inj _ _ hY, ?_⟩
  injection hR with hR1 hR2
  obtain ⟨hM, hD⟩ := List.append_inj hR2 (by rw [hlm1, hlm2])
  have hMv := congrArg digitsVal hM
  rw [pad2_val, pad2_val] at hMv
  injection hD with hD1 hD2
  have hDv := congrArg digitsVal hD2
  rw [pad2_val, pad2_val] at hDv
  omega

/-- `format_date` is injective: distinct dates always render to distinct strings. -/
theorem format_date_inj (a b : Int) (h : format_date a = format_date b) : a = b := by
  unfold format_date at h
  injection h with h'
  have hba := ord2ymd_bounds a (ord2ymd a).1 (ord2ymd a).2.1 (ord2ymd a).2.2 rfl
  have hbb := ord2ymd_bounds b (ord2ymd b).1 (ord2ymd b).2.1 (ord2ymd b).2.2 rfl
  obtain ⟨hy, hm, hd⟩ := fmtYmd_inj _ _ _ _ _ _
    ⟨hba.1, hba.2.1⟩ ⟨hba.2.2.1, hba.2.2.2⟩ ⟨hbb.1, hbb.2.1⟩ ⟨hbb.2.2.1, hbb.2.2.2⟩ h'
  apply ord2ymd_injective
  have e1 : ord2ymd a = ((ord2ymd a).1, (ord2ymd a).2.1, (ord2ymd a).2.2) := rfl
  have e2 : ord2ymd b = ((ord2ymd b).1, (ord2ymd b).2.1, (ord2ymd b).2.2) := rfl
  rw [e1, e2, hy, hm, hd]

/-! ### Holidays and the business-day calculator (`hudy/utils/business_days.py`) -/

/-- The `Holiday` record from `hudy/types.py` (its `date` field is a
"YYYY-MM-DD" string; only `date` is consulted by the core). -/
structure Holiday where
  id : String
  name : String
  date : String
  year : Int
  month : Int
  day : Int
  day_of_week : String
  type : String
  deriving Repr, DecidableEq

/-- `BusinessDayCalculator`: after `__init__` it holds only the set of
holiday `date` strings. -/
structure BusinessDayCalculator where
  holiday_set : List String
  deriving Repr, DecidableEq

/-- `BusinessDayCalculator.__init__`: `self._holiday_set = {h.date for h in holidays}`. -/
def BusinessDayCalculator.ofHolidays (holidays : List Holiday) : BusinessDayCalculator :=
  ⟨holidays.map Holiday.date⟩

/-- `BusinessDayCalculator.is_business_day`. -/
def BusinessDayCalculator.is_business_day (c : BusinessDayCalculator) (d : Int) : Bool :=
  if is_weekend d then false
  else !(c.holiday_set.contains (format_date d))

theorem is_business_day_iff (c : BusinessDayCalculator) (d : Int) :
    c.is_business_day d = true ↔ (is_weekend d = false ∧ format_date d ∉ c.holiday_set) := by
  unfold BusinessDayCalculator.is_business_day
  cases h : is_weekend d <;> simp [h, List.elem_iff]

/-- The ordinals whose formatted string is one of finitely many holiday strings
form a finite set. -/
theorem holiday_ordinals_finite (l : List String) :
    (Set.preimage format_date {s | s ∈ l}).Finite := by
  apply Set.Finite.preimage
  · intro a _ b _ hab
    exact format_date_inj a b hab
  · exact l.finite_toSet

/-- In either stepping direction there is always a business day to be found:
weekdays recur every week and only finitely many days are holidays. -/
theorem exists_bd (c : BusinessDayCalculator) (dir : Int) (hdir : dir = 1 ∨ dir = -1)
    (start : Int) : ∃ k : Nat, c.is_business_day (start + dir * k) = true := by
  obtain ⟨Mu, hMu⟩ := (holiday_ordinals_finite c.holiday_set).bddAbove
  obtain ⟨Ml, hMl⟩ := (holiday_ordinals_finite c.holiday_set).bddBelow
  have key : ∀ z : Int, z % 7 = 1 → (Mu < z ∨ z < Ml) → c.is_business_day z = true := by
    intro z hz hout
    rw [is_business_day_iff]
    constructor
    · unfold is_weekend pyWeekday
      rw [decide_eq_false_iff_not]
      omega
    · intro hmem
      have hzin : z ∈ Set.preimage format_date {s | s ∈ c.holiday_set} := hmem
      rcases hout with hgt | hlt
      · exact absurd (hMu hzin) (by omega)
      · exact absurd (hMl hzin) (by omega)
  rcases hdir with h1 | h1
  · refine ⟨(max start (Mu + 1) + (1 - max start (Mu + 1)) % 7 - start).toNat, ?_⟩
    have hle : start ≤ max start (Mu + 1) := le_max_left _ _
    have hMule : Mu + 1 ≤ max start (Mu + 1) := le_max_right _ _
    have harg : start + dir * ((max start (Mu + 1) + (1 - max start (Mu + 1)) % 7 - start).toNat : Int)
        = max start (Mu + 1) + (1 - max start (Mu + 1)) % 7 := by
      rw [h1]
      omega
    rw [harg]
    exact key _ (by omega) (Or.inl (by omega))
  · refine ⟨(start - (min start (Ml - 1) - (min start (Ml - 1) - 1) % 7)).toNat, ?_⟩
    have hle : min start (Ml - 1) ≤ start := min_le_left _ _
    have hMlle : min start (Ml - 1) ≤ Ml - 1 := min_le_right _ _
    have harg : start + dir * ((start - (min start (Ml - 1) - (min start (Ml - 1) - 1) % 7)).toNat : Int)
        = min start (Ml - 1) - (min start (Ml - 1) - 1) % 7 := by
      rw [h1]
      omega
    rw [harg]
    exact key _ (by omega) (Or.inr (by omega))

/-- Stepping one (non-business) day toward the next business day strictly
decreases the distance to it. -/
theorem find_step (c : BusinessDayCalculator) (dir : Int) (hdir : dir = 1 ∨ dir = -1)
    (s : Int) (h : ¬ c.is_business_day s = true) :
    Nat.find (exists_bd c dir hdir (s + dir)) < Nat.find (exists_bd c dir hdir s) := by
  have hk0 := Nat.find_spec (exists_bd c dir hdir s)
  have hne : Nat.find (exists_bd c dir hdir s) ≠ 0 := by
    intro h0
    rw [h0] at hk0
    simp only [Nat.cast_zero, mul_zero, add_zero] at hk0
    exact h hk0
  have hq : c.is_business_day
      ((s + dir) + dir * ((Nat.find (exists_bd c dir hdir s) - 1 : Nat) : Int)) = true := by
    have hcast : ((s + dir) + dir * ((Nat.find (exists_bd c dir hdir s) - 1 : Nat) : Int))
        = s + dir * (Nat.find (exists_bd c dir hdir s) : Int) := by
      have : ((Nat.find (exists_bd c dir hdir s) - 1 : Nat) : Int)
          = (Nat.find (exists_bd c dir hdir s) : Int) - 1 := by omega
      rw [this]
      ring
    rw [hcast]
    exact hk0
  have hle := Nat.find_min' (exists_bd c dir hdir (s + dir)) hq
  omega

/-- The `while not self.is_business_day(current): current = add_days(current, dir)`
loop shared by `get_next_business_day` (dir = 1) and
`get_previous_business_day` (dir = -1). -/
def searchDir (c : BusinessDayCalculator) (dir : Int) (hdir : dir = 1 ∨ dir = -1)
    (current : Int) : Int :=
  if c.is_business_day current then current
  else searchDir c dir hdir (add_days current dir)
termination_by Nat.find (exists_bd c dir hdir current)
decreasing_by exact find_step c dir hdir current (by assumption)

/-- `BusinessDayCalculator.get_next_business_day`. -/
def BusinessDayCalculator.get_next_business_day (c : BusinessDayCalculator)
    (from_date : Int) : Int :=
  searchDir c 1 (Or.inl rfl) (add_days from_date 1)

/-- `BusinessDayCalculator.get_previous_business_day`. -/
def BusinessDayCalculator.get_previous_business_day (c : BusinessDayCalculator)
    (from_date : Int) : Int :=
  searchDir c (-1) (Or.inr rfl) (add_days from_date (-1))

/-- The `while added < remaining` loop of `add_business_days`; `remaining`
counts business-day steps still owed. -/
def addLoop (c : BusinessDayCalculator) (dir : Int) (hdir : dir = 1 ∨ dir = -1)
    (current : Int) (remaining : Nat) : Int :=
  if remaining = 0 then current
  else
    if c.is_business_day (add_days current dir) then
      addLoop c dir hdir (add_days current dir) (remaining - 1)
    else
      addLoop c dir hdir (add_days current dir) remaining
termination_by (remaining, Nat.find (exists_bd c dir hdir (current + dir)))
decreasing_by
  · exact Prod.Lex.left _ _ (by omega)
  · exact Prod.Lex.right _ (find_step c dir hdir (current + dir) (by assumption))

/-- `BusinessDayCalculator.add_business_days`; `direction = 1 if days > 0 else -1`
is rendered as the two sign branches of the same loop. -/
def BusinessDayCalculator.add_business_days (c : BusinessDayCalculator)
    (from_date : Int) (days : Int) : Int :=
  if days = 0 then from_date
  else if days > 0 then addLoop c 1 (Or.inl rfl) from_date days.natAbs
  else addLoop c (-1) (Or.inr rfl) from_date days.natAbs

/-- The `while current <= to_date` day-walking loop of `count_business_days`,
one iteration per calendar day of the range. -/
def countLoop (c : BusinessDayCalculator) : Int → Nat → Nat
  | _, 0 => 0
  | cur, n + 1 => (if c.is_business_day cur then 1 else 0) + countLoop c (add_days cur 1) n

/-- `BusinessDayCalculator.count_business_days`; the `ValueError` raise is
modelled as `Except.error` with the source's message. -/
def BusinessDayCalculator.count_business_days (c : BusinessDayCalculator)
    (from_date to_date : Int) : Except String Nat :=
  if from_date > to_date then .error "from_date must be before or equal to to_date"
  else .ok (countLoop c from_date (to_date + 1 - from_date).toNat)

/-- The day-walking loop of `get_business_days_in_range`. -/
def rangeLoop (c : BusinessDayCalculator) : Int → Nat → List Int
  | _, 0 => []
  | cur, n + 1 => (if c.is_business_day cur then [cur] else []) ++ rangeLoop c (add_days cur 1) n

/-- `BusinessDayCalculator.get_business_days_in_range`. -/
def BusinessDayCalculator.get_business_days_in_range (c : BusinessDayCalculator)
    (from_date to_date : Int) : Except String (List Int) :=
  if from_date > to_date then .error "from_date must be before or equal to to_date"
  else .ok (rangeLoop c from_date (to_date + 1 - from_date).toNat)

/-- Fuel-limited mirror of the `while not is_business_day` loop, for stating
termination of `get_next_business_day` / `get_previous_business_day`. -/
def fuelSearch (c : BusinessDayCalculator) (dir : Int) : Nat → Int → Option Int
  | 0, _ => none
  | f + 1, cur => if c.is_business_day cur then some cur else fuelSearch c dir f (cur + dir)

/-- Fuel-limited mirror of the `while added < remaining` loop of
`add_business_days`. -/
def fuelAdd (c : BusinessDayCalculator) (dir : Int) : Nat → Int → Nat → Option Int
  | 0, _, _ => none
  | f + 1, cur, remaining =>
    if remaining = 0 then some cur
    else
      if c.is_business_day (cur + dir) then fuelAdd c dir f (cur + dir) (remaining - 1)
      else fuelAdd c dir f (cur + dir) remaining

/-- The calendar days of `[from_date, to_date]` in chronological order. -/
def dayInterval (from_date to_date : Int) : List Int :=
  (List.range (to_date + 1 - from_date).toNat).map (fun k : Nat => from_date + (k : Int))

/-! ### Characterisation of the stepping loops -/

theorem find_succ (c : BusinessDayCalculator) (dir : Int) (hdir : dir = 1 ∨ dir = -1)
    (s : Int) (h : ¬ c.is_business_day s = true) :
    Nat.find (exists_bd c dir hdir s) = Nat.find (exists_bd c dir hdir (s + dir)) + 1 := by
  have h1 := find_step c dir hdir s h
  have hspec := Nat.find_spec (exists_bd c dir hdir (s + dir))
  have hp : c.is_business_day
      (s + dir * ((Nat.find (exists_bd c dir hdir (s + dir)) + 1 : Nat) : Int)) = true := by
    have hcast : s + dir * ((Nat.find (exists_bd c dir hdir (s + dir)) + 1 : Nat) : Int)
        = (s + dir) + dir * (Nat.find (exists_bd c dir hdir (s + dir)) : Int) := by
      push_cast
      ring
    rw [hcast]
    exact hspec
  have h2 := Nat.find_min' (exists_bd c dir hdir s) hp
  omega

theorem searchDir_eq_find (c : BusinessDayCalculator) (dir : Int) (hdir : dir = 1 ∨ dir = -1)
    (start : Int) :
    searchDir c dir hdir start = start + dir * (Nat.find (exists_bd c dir hdir start) : Int) := by
  induction start using searchDir.induct c dir hdir with
  | case1 current hbd =>
    rw [searchDir, if_pos hbd]
    have h0 : Nat.find (exists_bd c dir hdir current) = 0 := by
      rw [Nat.find_eq_zero]
      simpa using hbd
    rw [h0]
    simp
  | case2 current hbd ih =>
    rw [searchDir, if_neg hbd]
    simp only [add_days] at ih ⊢
    rw [ih, find_succ c dir hdir current hbd]
    push_cast
    ring

theorem searchDir_isBusinessDay (c : BusinessDayCalculator) (dir : Int)
    (hdir : dir = 1 ∨ dir = -1) (start : Int) :
    c.is_business_day (searchDir c dir hdir start) = true := by
  rw [searchDir_eq_find]
  exact Nat.find_spec (exists_bd c dir hdir start)

theorem searchDir_ge (c : BusinessDayCalculator) (hdir : (1:Int) = 1 ∨ (1:Int) = -1)
    (start : Int) : start ≤ searchDir c 1 hdir start := by
  rw [searchDir_eq_find]
  have : (0:Int) ≤ (Nat.find (exists_bd c 1 hdir start) : Int) := by positivity
  omega

theorem searchDir_le (c : BusinessDayCalculator) (hdir : (-1:Int) = 1 ∨ (-1:Int) = -1)
    (start : Int) : searchDir c (-1) hdir start ≤ start := by
  rw [searchDir_eq_find]
  have : (0:Int) ≤ (Nat.find (exists_bd c (-1) hdir start) : Int) := by positivity
  omega

theorem searchDir_min_up (c : BusinessDayCalculator) (hdir : (1:Int) = 1 ∨ (1:Int) = -1)
    (start z : Int) (hz : start ≤ z) (hbd : c.is_business_day z = true) :
    searchDir c 1 hdir start ≤ z := by
  rw [searchDir_eq_find]
  have hp : c.is_business_day (start + 1 * ((z - start).toNat : Int)) = true := by
    rw [show start + 1 * ((z - start).toNat : Int) = z from by omega]
    exact hbd
  have := Nat.find_min' (exists_bd c 1 hdir start) hp
  omega

theorem searchDir_min_down (c : BusinessDayCalculator) (hdir : (-1:Int) = 1 ∨ (-1:Int) = -1)
    (start z : Int) (hz : z ≤ start) (hbd : c.is_business_day z = true) :
    z ≤ searchDir c (-1) hdir start := by
  rw [searchDir_eq_find]
  have hp : c.is_business_day (start + (-1) * ((start - z).toNat : Int)) = true := by
    rw [show start + (-1) * ((start - z).toNat : Int) = z from by omega]
    exact hbd
  have := Nat.find_min' (exists_bd c (-1) hdir start) hp
  omega

theorem get_next_spec (c : BusinessDayCalculator) (d : Int) :
    c.is_business_day (c.get_next_business_day d) = true ∧
    d < c.get_next_business_day d ∧
    ∀ z, d < z → c.is_business_day z = true → c.get_next_business_day d ≤ z := by
  unfold BusinessDayCalculator.get_next_business_day
  refine ⟨searchDir_isBusinessDay c 1 (Or.inl rfl) (add_days d 1), ?_, ?_⟩
  · have := searchDir_ge c (Or.inl rfl) (add_days d 1)
    simp only [add_days] at this ⊢
    omega
  · intro z hz hbd
    exact searchDir_min_up c (Or.inl rfl) (add_days d 1) z (by simp only [add_days]; omega) hbd

theorem get_previous_spec (c : BusinessDayCalculator) (d : Int) :
    c.is_business_day (c.get_previous_business_day d) = true ∧
    c.get_previous_business_day d < d ∧
    ∀ z, z < d → c.is_business_day z = true → z ≤ c.get_previous_business_day d := by
  unfold BusinessDayCalculator.get_previous_business_day
  refine ⟨searchDir_isBusinessDay c (-1) (Or.inr rfl) (add_days d (-1)), ?_, ?_⟩
  · have := searchDir_le c (Or.inr rfl) (add_days d (-1))
    simp only [add_days] at this ⊢
    omega
  · intro z hz hbd
    exact searchDir_min_down c (Or.inr rfl) (add_days d (-1)) z (by simp only [add_days]; omega) hbd

/-- Going to the next business day and then back to the previous one returns to a
business-day start. -/
theorem prev_next_cancel (c : BusinessDayCalculator) (d : Int)
    (hd : c.is_business_day d = true) :
    c.get_previous_business_day (c.get_next_business_day d) = d := by
  obtain ⟨hbdn, hltn, hminn⟩ := get_next_spec c d
  obtain ⟨hbdp, hltp, hminp⟩ := get_previous_spec c (c.get_next_business_day d)
  have hlow : d ≤ c.get_previous_business_day (c.get_next_business_day d) :=
    hminp d hltn hd
  have hhigh : ¬ d < c.get_previous_business_day (c.get_next_business_day d) := by
    intro hcon
    have := hminn _ hcon hbdp
    omega
  omega

theorem next_prev_cancel (c : BusinessDayCalculator) (d : Int)
    (hd : c.is_business_day d = true) :
    c.get_next_business_day (c.get_previous_business_day d) = d := by
  obtain ⟨hbdp, hltp, hminp⟩ := get_previous_spec c d
  obtain ⟨hbdn, hltn, hminn⟩ := get_next_spec c (c.get_previous_business_day d)
  have hlow : c.get_next_business_day (c.get_previous_business_day d) ≤ d :=
    hminn d hltp hd
  have hhigh : ¬ c.get_next_business_day (c.get_previous_business_day d) < d := by
    intro hcon
    have := hminp _ hcon hbdn
    omega
  omega

theorem addLoop_zero (c : BusinessDayCalculator) (dir : Int) (hdir : dir = 1 ∨ dir = -1)
    (cur : Int) : addLoop c dir hdir cur 0 = cur := by
  rw [addLoop]
  simp

theorem addLoop_succ_aux (c : BusinessDayCalculator) (dir : Int) (hdir : dir = 1 ∨ dir = -1) :
    ∀ (n : Nat) (cur : Int) (r : Nat),
      Nat.find (exists_bd c dir hdir (cur + dir)) = n →
      addLoop c dir hdir cur (r + 1) = addLoop c dir hdir (searchDir c dir hdir (cur + dir)) r := by
  intro n
  induction n using Nat.strong_induction_on with
  | _ n ih =>
    intro cur r hn
    by_cases hbd : c.is_business_day (cur + dir) = true
    · rw [addLoop, if_neg (Nat.succ_ne_zero r)]
      simp only [add_days]
      rw [if_pos hbd]
      rw [searchDir, if_pos hbd]
      simp
    · rw [addLoop, if_neg (Nat.succ_ne_zero r)]
      simp only [add_days]
      rw [if_neg hbd]
      have hstep : Nat.find (exists_bd c dir hdir ((cur + dir) + dir)) < n := by
        rw [← hn]
        exact find_step c dir hdir (cur + dir) hbd
      rw [ih _ hstep (cur + dir) r rfl]
      rw [show searchDir c dir hdir (cur + dir) = searchDir c dir hdir ((cur + dir) + dir) from by
        rw [searchDir, if_neg hbd]
        simp [add_days]]

theorem addLoop_succ (c : BusinessDayCalculator) (dir : Int) (hdir : dir = 1 ∨ dir = -1)
    (cur : Int) (r : Nat) :
    addLoop c dir hdir cur (r + 1) = addLoop c dir hdir (searchDir c dir hdir (cur + dir)) r :=
  addLoop_succ_aux c dir hdir _ cur r rfl

theorem addLoop_up_iterate (c : BusinessDayCalculator) (hdir : (1:Int) = 1 ∨ (1:Int) = -1) :
    ∀ (r : Nat) (cur : Int),
      addLoop c 1 hdir cur r = (fun x => c.get_next_business_day x)^[r] cur := by
  intro r
  induction r with
  | zero => intro cur; rw [addLoop_zero]; rfl
  | succ r ih =>
    intro cur
    rw [addLoop_succ, Function.iterate_succ_apply, ih]
    rfl

theorem addLoop_down_iterate (c : BusinessDayCalculator) (hdir : (-1:Int) = 1 ∨ (-1:Int) = -1) :
    ∀ (r : Nat) (cur : Int),
      addLoop c (-1) hdir cur r = (fun x => c.get_previous_business_day x)^[r] cur := by
  intro r
  induction r with
  | zero => intro cur; rw [addLoop_zero]; rfl
  | succ r ih =>
    intro cur
    rw [addLoop_succ, Function.iterate_succ_apply, ih]
    rfl

theorem bd_nextIter (c : BusinessDayCalculator) (n : Nat) (d : Int)
    (hd : c.is_business_day d = true) :
    c.is_business_day ((fun x => c.get_next_business_day x)^[n] d) = true := by
  cases n with
  | zero => exact hd
  | succ n =>
    rw [Function.iterate_succ_apply']
    exact (get_next_spec c _).1

theorem bd_prevIter (c : BusinessDayCalculator) (n : Nat) (d : Int)
    (hd : c.is_business_day d = true) :
    c.is_business_day ((fun x => c.get_previous_business_day x)^[n] d) = true := by
  cases n with
  | zero => exact hd
  | succ n =>
    rw [Function.iterate_succ_apply']
    exact (get_previous_spec c _).1

theorem prevIter_nextIter (c : BusinessDayCalculator) :
    ∀ (n : Nat) (d : Int), c.is_business_day d = true →
      (fun x => c.get_previous_business_day x)^[n]
        ((fun x => c.get_next_business_day x)^[n] d) = d := by
  intro n
  induction n with
  | zero => intro d _; rfl
  | succ n ih =>
    intro d hd
    rw [Function.iterate_succ_apply' (fun x => c.get_next_business_day x),
      Function.iterate_succ_apply (fun x => c.get_previous_business_day x)]
    rw [show c.get_previous_business_day (c.get_next_business_day
        ((fun x => c.get_next_business_day x)^[n] d))
        = (fun x => c.get_next_business_day x)^[n] d from
      prev_next_cancel c _ (bd_nextIter c n d hd)]
    exact ih d hd

theorem nextIter_prevIter (c : BusinessDayCalculator) :
    ∀ (n : Nat) (d : Int), c.is_business_day d = true →
      (fun x => c.get_next_business_day x)^[n]
        ((fun x => c.get_previous_business_day x)^[n] d) = d := by
  intro n
  induction n with
  | zero => intro d _; rfl
  | succ n ih =>
    intro d hd
    rw [Function.iterate_succ_apply' (fun x => c.get_previous_business_day x),
      Function.iterate_succ_apply (fun x => c.get_next_business_day x)]
    rw [show c.get_next_business_day (c.get_previous_business_day
        ((fun x => c.get_previous_business_day x)^[n] d))
        = (fun x => c.get_previous_business_day x)^[n] d from
      next_prev_cancel c _ (bd_prevIter c n d hd)]
    exact ih d hd

theorem add_pos_eq (c : BusinessDayCalculator) (d n : Int) (h : 0 < n) :
    c.add_business_days d n = (fun x => c.get_next_business_day x)^[n.natAbs] d := by
  unfold BusinessDayCalculator.add_business_days
  rw [if_neg (by omega), if_pos (by omega : n > 0)]
  exact addLoop_up_iterate c (Or.inl rfl) n.natAbs d

theorem add_neg_eq (c : BusinessDayCalculator) (d n : Int) (h : n < 0) :
    c.add_business_days d n = (fun x => c.get_previous_business_day x)^[n.natAbs] d := by
  unfold BusinessDayCalculator.add_business_days
  rw [if_neg (by omega), if_neg (by omega : ¬ n > 0)]
  exact addLoop_down_iterate c (Or.inr rfl) n.natAbs d

theorem rangeLoop_eq (c : BusinessDayCalculator) :
    ∀ (n : Nat) (cur : Int),
      rangeLoop c cur n =
        ((List.range n).map (fun k : Nat => cur + (k : Int))).filter
          (fun d => c.is_business_day d) := by
  intro n
  induction n with
  | zero => intro cur; simp [rangeLoop]
  | succ n ih =>
    intro cur
    have hmap : (List.range (n + 1)).map (fun k : Nat => cur + (k : Int))
        = cur :: (List.range n).map (fun k : Nat => (cur + 1) + (k : Int)) := by
      rw [List.range_succ_eq_map]
      simp only [List.map_cons, List.map_map, Nat.cast_zero, add_zero]
      congr 1
      apply List.map_congr_left
      intro k _
      simp only [Function.comp_apply]
      push_cast
      ring
    rw [hmap, List.filter_cons]
    simp only [rangeLoop, add_days]
    rw [ih (cur + 1)]
    by_cases hbd : c.is_business_day cur = true
    · simp [hbd]
    · simp [hbd]

theorem countLoop_eq (c : BusinessDayCalculator) :
    ∀ (n : Nat) (cur : Int), countLoop c cur n = (rangeLoop c cur n).length := by
  intro n
  induction n with
  | zero => intro cur; simp [countLoop, rangeLoop]
  | succ n ih =>
    intro cur
    simp only [countLoop, rangeLoop, List.length_append, ih]
    cases hbd : c.is_business_day cur <;> simp [hbd]

theorem dayInterval_pairwise (f t : Int) : (dayInterval f t).Pairwise (· < ·) := by
  unfold dayInterval
  rw [List.pairwise_map]
  refine List.Pairwise.imp ?_ (List.pairwise_lt_range _)
  intro a b hab
  omega

theorem fuelSearch_ex (c : BusinessDayCalculator) (dir : Int) (hdir : dir = 1 ∨ dir = -1) :
    ∀ (n : Nat) (start : Int), Nat.find (exists_bd c dir hdir start) = n →
      ∃ f, fuelSearch c dir f start = some (searchDir c dir hdir start) := by
  intro n
  induction n using Nat.strong_induction_on with
  | _ n ih =>
    intro start hn
    by_cases hbd : c.is_business_day start = true
    · refine ⟨1, ?_⟩
      simp only [fuelSearch]
      rw [if_pos hbd, searchDir, if_pos hbd]
    · have hstep : Nat.find (exists_bd c dir hdir (start + dir)) < n :=
        hn ▸ find_step c dir hdir start hbd
      obtain ⟨f, hf⟩ := ih _ hstep (start + dir) rfl
      refine ⟨f + 1, ?_⟩
      simp only [fuelSearch]
      rw [if_neg hbd, hf]
      conv_rhs => rw [searchDir, if_neg hbd]
      rfl

theorem fuelAdd_ex (c : BusinessDayCalculator) (dir : Int) (hdir : dir = 1 ∨ dir = -1) :
    ∀ (r : Nat) (cur : Int),
      ∃ f, fuelAdd c dir f cur r = some (addLoop c dir hdir cur r) := by
  intro r
  induction r with
  | zero =>
    intro cur
    refine ⟨1, ?_⟩
    simp [fuelAdd, addLoop_zero]
  | succ r ihr =>
    intro cur
    suffices h : ∀ (n : Nat) (cur : Int), Nat.find (exists_bd c dir hdir (cur + dir)) = n →
        ∃ f, fuelAdd c dir f cur (r + 1) = some (addLoop c dir hdir cur (r + 1)) from
      h _ cur rfl
    intro n
    induction n using Nat.strong_induction_on with
    | _ n ih =>
      intro cur hn
      by_cases hbd : c.is_business_day (cur + dir) = true
      · obtain ⟨f, hf⟩ := ihr (cur + dir)
        refine ⟨f + 1, ?_⟩
        simp only [fuelAdd]
        rw [if_neg (by omega : ¬ r + 1 = 0), if_pos hbd]
        simp only [Nat.add_sub_cancel]
        rw [hf]
        conv_rhs => rw [addLoop, if_neg (by omega : ¬ r + 1 = 0)]
        simp only [add_days]
        rw [if_pos hbd]
        simp
      · have hstep : Nat.find (exists_bd c dir hdir ((cur + dir) + dir)) < n :=
          hn ▸ find_step c dir hdir (cur + dir) hbd
        obtain ⟨f, hf⟩ := ih _ hstep (cur + dir) rfl
        refine ⟨f + 1, ?_⟩
        simp only [fuelAdd]
        rw [if_neg (by omega : ¬ r + 1 = 0), if_neg hbd, hf]
        conv_rhs => rw [addLoop, if_neg (by omega : ¬ r + 1 = 0)]
        simp only [add_days]
        rw [if_neg hbd]

/-! ### The smart cache (`hudy/cache.py`) -/

/-- `CacheEntry`: stored holiday list plus absolute expiry timestamp. -/
structure CacheEntry where
  data : List Holiday
  expires_at : Int
  deriving Repr, DecidableEq

/-- `SmartCache` state: the `_store` dict (modelled as an insertion-ordered
association list; a Python dict's keys are unique), the hit/miss counters and
the optional user TTL override. -/
structure SmartCache where
  store : List (String × CacheEntry)
  hits : Nat
  misses : Nat
  custom_ttl : Option Int
  deriving Repr, DecidableEq

/-- A Python dict never holds two entries with the same key. -/
def storeWF (c : SmartCache) : Prop := (c.store.map Prod.fst).Nodup

/-- `SmartCache._get_year_key`: the f-string `year:{year}`. -/
def yearKey (year : Int) : String :=
  String.mk ("year:".data ++ (if year < 0 then '-' :: natDigits (-year).toNat
    else natDigits year.toNat))

/-- Python `dict[key] = value`: replace in place when the key is present,
append otherwise. -/
def dictInsert (s : List (String × CacheEntry)) (k : String) (v : CacheEntry) :
    List (String × CacheEntry) :=
  if s.any (fun kv => kv.1 == k) then s.map (fun kv => if kv.1 == k then (k, v) else kv)
  else s ++ [(k, v)]

/-- Python `del dict[key]`. -/
def dictErase (s : List (String × CacheEntry)) (k : String) : List (String × CacheEntry) :=
  s.eraseP (fun kv => kv.1 == k)

/-- `SmartCache.get`; `now` is `time.time()` at call time. Returns the looked-up
value and the updated cache state. -/
def SmartCache.get (c : SmartCache) (now : Int) (year : Int) :
    Option (List Holiday) × SmartCache :=
  match c.store.lookup (yearKey year) with
  | none => (none, { c with misses := c.misses + 1 })
  | some entry =>
    if now > entry.expires_at then
      (none, { c with store := dictErase c.store (yearKey year), misses := c.misses + 1 })
    else
      (some entry.data, { c with hits := c.hits + 1 })

/-- `SmartCache._get_ttl`; `now_year` is `datetime.now().year` at call time. -/
def SmartCache.get_ttl (c : SmartCache) (now_year : Int) (year : Int) : Int :=
  match c.custom_ttl with
  | some t => t
  | none =>
    if year < now_year then 365 * 24 * 60 * 60
    else if year = now_year then 24 * 60 * 60
    else 7 * 24 * 60 * 60

/-- `SmartCache.set`. -/
def SmartCache.set (c : SmartCache) (now : Int) (now_year : Int) (year : Int)
    (holidays : List Holiday) : SmartCache :=
  { c with store := dictInsert c.store (yearKey year) (CacheEntry.mk holidays (now + c.get_ttl now_year year)) }

/-- `SmartCache.prune`: collect the expired keys, delete each, return the count. -/
def SmartCache.prune (c : SmartCache) (now : Int) : Nat × SmartCache :=
  let to_remove := (c.store.filter (fun kv => now > kv.2.expires_at)).map Prod.fst
  (to_remove.length, { c with store := to_remove.foldl (fun s k => dictErase s k) c.store })

/-- `SmartCache.clear`. -/
def SmartCache.clear (c : SmartCache) : SmartCache :=
  { c with store := [], hits := 0, misses := 0 }

/-- Python string `<=`: lexicographic comparison by code point. -/
def charListLe : List Char → List Char → Bool
  | [], _ => true
  | _ :: _, [] => false
  | a :: as, b :: bs =>
    if a.toNat < b.toNat then true
    else if b.toNat < a.toNat then false
    else charListLe as bs

/-- `a <= b` on Python strings. -/
def strLe (a b : String) : Bool := charListLe a.data b.data

/-- The filter `from_str <= h.date <= to_str` used by `get_range`. -/
def inRangeStr (from_str to_str : String) (h : Holiday) : Bool :=
  strLe from_str h.date && strLe h.date to_str

/-- The `for year in range(from_year, to_year + 1)` loop of `get_range`:
per-year `get`, early `None` return on a miss or falsy (empty) list,
otherwise `all_holidays.extend(cached)`. -/
def getRangeLoop (now : Int) : List Int → SmartCache → List Holiday →
    Option (List Holiday) × SmartCache
  | [], c, acc => (some acc, c)
  | y :: ys, c, acc =>
    match SmartCache.get c now y with
    | (none, c') => (none, c')
    | (some l, c') =>
      if l.isEmpty then (none, c')
      else getRangeLoop now ys c' (acc ++ l)

/-- `SmartCache.get_range`. -/
def SmartCache.get_range (c : SmartCache) (now : Int) (from_date to_date : Int) :
    Option (List Holiday) × SmartCache :=
  if pyYear from_date = pyYear to_date then
    match SmartCache.get c now (pyYear from_date) with
    | (none, c') => (none, c')
    | (some cached, c') =>
      if cached.isEmpty then (none, c')
      else (some (cached.filter (inRangeStr (format_date from_date) (format_date to_date))), c')
  else
    match getRangeLoop now ((List.range (pyYear to_date + 1 - pyYear from_date).toNat).map
        (fun k : Nat => pyYear from_date + (k : Int))) c [] with
    | (none, c') => (none, c')
    | (some all, c') =>
      (some (all.filter (inRangeStr (format_date from_date) (format_date to_date))), c')

/-- The calendar years spanned by `[from_date, to_date]`. -/
def spannedYears (from_date to_date : Int) : List Int :=
  (List.range (pyYear to_date + 1 - pyYear from_date).toNat).map
    (fun k : Nat => pyYear from_date + (k : Int))

/-- The data currently cached for a year (empty when absent); used to state
what `get_range` returns. -/
def dataOf (c : SmartCache) (y : Int) : List Holiday :=
  match c.store.lookup (yearKey y) with
  | some e => e.data
  | none => []

/-- A year is "ready" for `get_range`: present, unexpired, and (because Python's
`if not cached` treats `[]` as falsy) nonempty. -/
def yearReady (c : SmartCache) (now : Int) (y : Int) : Prop :=
  ∃ e, c.store.lookup (yearKey y) = some e ∧ ¬ now > e.expires_at ∧ e.data ≠ []

/-! ### Dictionary lemmas -/

theorem lookup_eq_none_of_keys (s : List (String × CacheEntry)) (k : String)
    (h : ∀ p ∈ s, p.1 ≠ k) : s.lookup k = none := by
  induction s with
  | nil => rfl
  | cons kv s ih =>
    have hk : ¬ kv.1 = k := h kv (List.mem_cons_self _ _)
    simp only [List.lookup]
    rw [show (k == kv.1) = false from by simp [Ne.symm hk]]
    exact ih (fun p hp => h p (List.mem_cons_of_mem _ hp))

theorem lookup_dictInsert_self (s : List (String × CacheEntry)) (k : String) (v : CacheEntry) :
    (dictInsert s k v).lookup k = some v := by
  unfold dictInsert
  split_ifs with hany
  · induction s with
    | nil => simp at hany
    | cons kv s ih =>
      simp only [List.map_cons]
      by_cases hk : kv.1 = k
      · rw [if_pos (by simp [hk])]
        simp [List.lookup]
      · rw [if_neg (by simp [hk])]
        simp only [List.lookup]
        rw [show (k == kv.1) = false from by simp [Ne.symm hk]]
        exact ih (by simpa [hk] using hany)
  · induction s with
    | nil => simp [List.lookup]
    | cons kv s ih =>
      simp only [List.any_cons, Bool.or_eq_true, beq_iff_eq, not_or] at hany
      simp only [List.cons_append, List.lookup]
      rw [show (k == kv.1) = false from by simp [Ne.symm hany.1]]
      exact ih (by simpa using hany.2)

theorem dictErase_eq_filter (s : List (String × CacheEntry)) (k : String)
    (hnd : (s.map Prod.fst).Nodup) :
    dictErase s k = s.filter (fun kv => !(kv.1 == k)) := by
  induction s with
  | nil => rfl
  | cons kv s ih =>
    simp only [List.map_cons, List.nodup_cons] at hnd
    obtain ⟨hnm, hnd'⟩ := hnd
    unfold dictErase
    by_cases hk : kv.1 = k
    · rw [List.eraseP_cons_of_pos (by simp [hk])]
      rw [List.filter_cons_of_neg (by simp [hk])]
      symm
      rw [List.filter_eq_self]
      intro p hp
      simp only [Bool.not_eq_true']
      have : p.1 ≠ k := by
        intro he
        apply hnm
        rw [hk, ← he]
        exact List.mem_map_of_mem Prod.fst hp
      simp [this]
    · rw [List.eraseP_cons_of_neg (by simp [hk])]
      rw [List.filter_cons_of_pos (by simp [hk])]
      rw [← ih hnd']
      rfl

theorem lookup_dictErase_self (s : List (String × CacheEntry)) (k : String)
    (hnd : (s.map Prod.fst).Nodup) : (dictErase s k).lookup k = none := by
  rw [dictErase_eq_filter s k hnd]
  apply lookup_eq_none_of_keys
  intro p hp
  have := List.of_mem_filter hp
  simp only [Bool.not_eq_true', beq_eq_false_iff_ne, ne_eq] at this
  exact this

theorem filter_keys_nodup (s : List (String × CacheEntry)) (p : String × CacheEntry → Bool)
    (hnd : (s.map Prod.fst).Nodup) : ((s.filter p).map Prod.fst).Nodup :=
  List.Nodup.sublist (List.Sublist.map Prod.fst (List.filter_sublist s)) hnd

theorem foldl_dictErase_eq_filter (ks : List String) :
    ∀ (s : List (String × CacheEntry)), (s.map Prod.fst).Nodup →
      ks.foldl (fun s k => dictErase s k) s = s.filter (fun kv => !(ks.contains kv.1)) := by
  induction ks with
  | nil =>
    intro s _
    simp only [List.foldl_nil]
    symm
    rw [List.filter_eq_self]
    intro p _
    simp
  | cons k ks ih =>
    intro s hnd
    simp only [List.foldl_cons]
    rw [show dictErase s k = s.filter (fun kv => !(kv.1 == k)) from dictErase_eq_filter s k hnd]
    rw [ih _ (filter_keys_nodup s _ hnd)]
    rw [List.filter_filter]
    apply List.filter_congr
    intro kv _
    simp only [List.contains_cons]
    cases hkk : kv.1 == k <;> simp [hkk]

/-- Two entries of a unique-key store with the same key are the same entry. -/
theorem nodup_key_unique (s : List (String × CacheEntry)) (hnd : (s.map Prod.fst).Nodup)
    (p q : String × CacheEntry) (hp : p ∈ s) (hq : q ∈ s) (hk : p.1 = q.1) : p = q := by
  induction s with
  | nil => cases hp
  | cons kv s ih =>
    simp only [List.map_cons, List.nodup_cons] at hnd
    obtain ⟨hnm, hnd'⟩ := hnd
    rcases List.mem_cons.mp hp with hp' | hp' <;> rcases List.mem_cons.mp hq with hq' | hq'
    · rw [hp', hq']
    · exfalso
      apply hnm
      rw [hp'] at hk
      rw [hk]
      exact List.mem_map_of_mem Prod.fst hq'
    · exfalso
      apply hnm
      rw [hq'] at hk
      rw [← hk]
      exact List.mem_map_of_mem Prod.fst hp'
    · exact ih hnd' hp' hq'

/-- What `prune` does to a unique-key store: it keeps exactly the unexpired
entries and returns the number of expired ones. -/
theorem prune_spec (c : SmartCache) (now : Int) (hwf : storeWF c) :
    (c.prune now).1 = (c.store.filter (fun kv => now > kv.2.expires_at)).length ∧
    (c.prune now).2.store = c.store.filter (fun kv => !(decide (now > kv.2.expires_at))) ∧
    (c.prune now).2.hits = c.hits ∧ (c.prune now).2.misses = c.misses := by
  unfold SmartCache.prune
  refine ⟨by simp, ?_, rfl, rfl⟩
  simp only
  rw [foldl_dictErase_eq_filter _ _ hwf]
  apply List.filter_congr
  intro kv hkv
  congr 1
  rw [Bool.eq_iff_iff]
  constructor
  · intro hmem
    have hmem' : kv.1 ∈ (c.store.filter (fun kv => decide (now > kv.2.expires_at))).map Prod.fst :=
      List.elem_iff.mp hmem
    obtain ⟨q, hqf, hqk⟩ := List.mem_map.mp hmem'
    obtain ⟨hqs, hqp⟩ := List.mem_filter.mp hqf
    have hqe := nodup_key_unique c.store hwf q kv hqs hkv hqk
    rw [← hqe]
    exact hqp
  · intro hexp
    exact List.elem_iff.mpr (List.mem_map_of_mem Prod.fst (List.mem_filter.mpr ⟨hkv, hexp⟩))

theorem get_of_ready (c : SmartCache) (now y : Int) (e : CacheEntry)
    (hlk : c.store.lookup (yearKey y) = some e) (hexp : ¬ now > e.expires_at) :
    SmartCache.get c now y = (some e.data, { c with hits := c.hits + 1 }) := by
  unfold SmartCache.get
  rw [hlk]
  simp only
  rw [if_neg hexp]

theorem get_of_absent (c : SmartCache) (now y : Int)
    (hlk : c.store.lookup (yearKey y) = none) :
    SmartCache.get c now y = (none, { c with misses := c.misses + 1 }) := by
  unfold SmartCache.get
  rw [hlk]

theorem get_of_expired (c : SmartCache) (now y : Int) (e : CacheEntry)
    (hlk : c.store.lookup (yearKey y) = some e) (hexp : now > e.expires_at) :
    SmartCache.get c now y
      = (none, { c with store := dictErase c.store (yearKey y), misses := c.misses + 1 }) := by
  unfold SmartCache.get
  rw [hlk]
  simp only
  rw [if_pos hexp]

theorem getRangeLoop_ready (now : Int) :
    ∀ (years : List Int) (c : SmartCache) (acc : List Holiday),
      (∀ y ∈ years, yearReady c now y) →
      (getRangeLoop now years c acc).1
        = some (acc ++ (years.map (fun y => dataOf c y)).flatten) := by
  intro years
  induction years with
  | nil =>
    intro c acc _
    simp [getRangeLoop]
  | cons y ys ih =>
    intro c acc hready
    obtain ⟨e, hlk, hexp, hne⟩ := hready y (List.mem_cons_self _ _)
    simp only [getRangeLoop]
    rw [get_of_ready c now y e hlk hexp]
    dsimp only
    rw [if_neg (by simp [hne])]
    rw [ih { c with hits := c.hits + 1 } (acc ++ e.data)
      (fun y' hy' => hready y' (List.mem_cons_of_mem _ hy'))]
    have hdy : dataOf c y = e.data := by
      unfold dataOf
      rw [hlk]
    have hfun : (fun y' => dataOf { c with hits := c.hits + 1 } y') = fun y' => dataOf c y' := rfl
    rw [hfun]
    simp [hdy]

theorem getRangeLoop_fail (now : Int) :
    ∀ (years : List Int) (c : SmartCache) (acc : List Holiday),
      (∃ y ∈ years, ¬ yearReady c now y) →
      (getRangeLoop now years c acc).1 = none := by
  intro years
  induction years with
  | nil =>
    intro c acc h
    obtain ⟨y, hy, -⟩ := h
    cases hy
  | cons y ys ih =>
    intro c acc hbad
    by_cases hready : yearReady c now y
    · obtain ⟨e, hlk, hexp, hne⟩ := hready
      simp only [getRangeLoop]
      rw [get_of_ready c now y e hlk hexp]
      dsimp only
      rw [if_neg (by simp [hne])]
      apply ih
      obtain ⟨y0, hy0, hy0bad⟩ := hbad
      rcases List.mem_cons.mp hy0 with he | hm
      · exfalso
        exact hy0bad (he ▸ (⟨e, hlk, hexp, hne⟩ : yearReady c now y))
      · exact ⟨y0, hm, hy0bad⟩
    · simp only [getRangeLoop]
      cases hlk : c.store.lookup (yearKey y) with
      | none =>
        rw [get_of_absent c now y hlk]
      | some e =>
        by_cases hexp : now > e.expires_at
        · rw [get_of_expired c now y e hlk hexp]
        · have hdata : e.data = [] := by
            by_contra hne
            exact hready ⟨e, hlk, hexp, hne⟩
          rw [get_of_ready c now y e hlk hexp]
          dsimp only
          rw [if_pos (by simp [hdata])]

/-- Full characterisation of what `get_range` returns: the filtered
concatenation when every spanned year is ready, `None` otherwise. -/
theorem get_range_chars (c : SmartCache) (now fd td : Int) :
    ((∀ y ∈ spannedYears fd td, yearReady c now y) →
      (c.get_range now fd td).1
        = some ((((spannedYears fd td).map (fun y => dataOf c y)).flatten).filter
            (inRangeStr (format_date fd) (format_date td)))) ∧
    ((∃ y ∈ spannedYears fd td, ¬ yearReady c now y) →
      (c.get_range now fd td).1 = none) := by
  by_cases hyy : pyYear fd = pyYear td
  · have hspan : spannedYears fd td = [pyYear fd] := by
      unfold spannedYears
      rw [show pyYear td + 1 - pyYear fd = 1 from by omega]
      rw [show ((1:Int).toNat) = 1 from rfl]
      rw [show List.range 1 = [0] from by decide]
      simp
    constructor
    · intro hready
      obtain ⟨e, hlk, hexp, hne⟩ :=
        hready (pyYear fd) (by rw [hspan]; exact List.mem_cons_self _ _)
      unfold SmartCache.get_range
      rw [if_pos hyy]
      rw [get_of_ready c now (pyYear fd) e hlk hexp]
      dsimp only
      rw [if_neg (by simp [hne])]
      rw [hspan]
      have hdy : dataOf c (pyYear fd) = e.data := by
        unfold dataOf
        rw [hlk]
      simp [hdy]
    · intro hbad
      obtain ⟨y0, hy0, hy0bad⟩ := hbad
      rw [hspan, List.mem_singleton] at hy0
      subst hy0
      unfold SmartCache.get_range
      rw [if_pos hyy]
      cases hlk : c.store.lookup (yearKey (pyYear fd)) with
      | none =>
        rw [get_of_absent c now (pyYear fd) hlk]
      | some e =>
        by_cases hexp : now > e.expires_at
        · rw [get_of_expired c now (pyYear fd) e hlk hexp]
        · have hdata : e.data = [] := by
            by_contra hne
            exact hy0bad ⟨e, hlk, hexp, hne⟩
          rw [get_of_ready c now (pyYear fd) e hlk hexp]
          dsimp only
          rw [if_pos (by simp [hdata])]
  · have hspan : spannedYears fd td
        = (List.range (pyYear td + 1 - pyYear fd).toNat).map
            (fun k : Nat => pyYear fd + (k : Int)) := rfl
    constructor
    · intro hready
      unfold SmartCache.get_range
      rw [if_neg hyy]
      have hloop := getRangeLoop_ready now ((List.range (pyYear td + 1 - pyYear fd).toNat).map
          (fun k : Nat => pyYear fd + (k : Int))) c [] hready
      rcases hres : getRangeLoop now ((List.range (pyYear td + 1 - pyYear fd).toNat).map
          (fun k : Nat => pyYear fd + (k : Int))) c [] with ⟨r1, r2⟩
      rw [hres] at hloop
      simp only at hloop
      subst hloop
      rfl
    · intro hbad
      unfold SmartCache.get_range
      rw [if_neg hyy]
      have hloop := getRangeLoop_fail now ((List.range (pyYear td + 1 - pyYear fd).toNat).map
          (fun k : Nat => pyYear fd + (k : Int))) c [] hbad
      rcases hres : getRangeLoop now ((List.range (pyYear td + 1 - pyYear fd).toNat).map
          (fun k : Nat => pyYear fd + (k : Int))) c [] with ⟨r1, r2⟩
      rw [hres] at hloop
      simp only at hloop
      subst hloop
      rfl

/-! ### Concrete fixtures used by the witnesses -/

/-- A sample public holiday (2024-01-01 was a Monday; its ordinal is 738886). -/
def sampleHoliday : Holiday :=
  Holiday.mk "h1" "New Year" "2024-01-01" 2024 1 1 "Monday" "public"

/-- The three-day Chuseok cluster of the spec scenario (2024-09-16..18). -/
def clusterHolidays : List Holiday :=
  [Holiday.mk "c1" "Chuseok 1" "2024-09-16" 2024 9 16 "Monday" "public",
   Holiday.mk "c2" "Chuseok 2" "2024-09-17" 2024 9 17 "Tuesday" "public",
   Holiday.mk "c3" "Chuseok 3" "2024-09-18" 2024 9 18 "Wednesday" "public"]

/-! ### The claims -/

/-- C1: for every date `d` and finite holiday set, `is_business_day d` is `false`
when `d` falls on a Saturday or Sunday; otherwise it is `false` exactly when the
canonical "YYYY-MM-DD" string of `d` is a member (by exact string equality) of
the set of holiday `date` strings, and `true` otherwise. -/
theorem C1_is_business_day_spec (hs : List Holiday) (d : Int) :
    (is_weekend d = true → (BusinessDayCalculator.ofHolidays hs).is_business_day d = false) ∧
    (is_weekend d = false →
      ((BusinessDayCalculator.ofHolidays hs).is_business_day d = false ↔
          format_date d ∈ hs.map Holiday.date) ∧
      ((BusinessDayCalculator.ofHolidays hs).is_business_day d = true ↔
          format_date d ∉ hs.map Holiday.date)) := by
  unfold BusinessDayCalculator.ofHolidays BusinessDayCalculator.is_business_day
  constructor
  · intro h
    rw [if_pos h]
  · intro h
    rw [if_neg (by simp [h])]
    constructor
    · simp [List.elem_iff]
    · simp [List.elem_iff]

theorem C1_is_business_day_witness :
    ((BusinessDayCalculator.ofHolidays [sampleHoliday]).is_business_day 739143 = false) ∧
    ((BusinessDayCalculator.ofHolidays [sampleHoliday]).is_business_day 738886 = false ↔
      format_date 738886 ∈ [sampleHoliday].map Holiday.date) :=
  ⟨(C1_is_business_day_spec [sampleHoliday] 739143).1 (by decide),
   ((C1_is_business_day_spec [sampleHoliday] 738886).2 (by decide)).1⟩

/-- C4: `count_business_days` and `get_business_days_in_range` raise the
`InvalidRange` `ValueError` exactly when `from > to`; for `from ≤ to`,
`get_business_days_in_range` returns the business days of the inclusive range in
chronological order and `count_business_days` returns their number. -/
theorem C4_range_functions_spec (hs : List Holiday) (f t : Int) :
    ((∃ msg, (BusinessDayCalculator.ofHolidays hs).count_business_days f t
        = Except.error msg) ↔ f > t) ∧
    ((∃ msg, (BusinessDayCalculator.ofHolidays hs).get_business_days_in_range f t
        = Except.error msg) ↔ f > t) ∧
    (f ≤ t →
      (BusinessDayCalculator.ofHolidays hs).get_business_days_in_range f t
          = Except.ok ((dayInterval f t).filter
              (fun d => (BusinessDayCalculator.ofHolidays hs).is_business_day d)) ∧
      (BusinessDayCalculator.ofHolidays hs).count_business_days f t
          = Except.ok (((dayInterval f t).filter
              (fun d => (BusinessDayCalculator.ofHolidays hs).is_business_day d)).length) ∧
      ((dayInterval f t).filter
          (fun d => (BusinessDayCalculator.ofHolidays hs).is_business_day d)).Pairwise
        (· < ·)) := by
  refine ⟨?_, ?_, ?_⟩
  · unfold BusinessDayCalculator.count_business_days
    split_ifs with hft
    · simp [hft]
    · simp [hft]
  · unfold BusinessDayCalculator.get_business_days_in_range
    split_ifs with hft
    · simp [hft]
    · simp [hft]
  · intro hle
    refine ⟨?_, ?_, ?_⟩
    · unfold BusinessDayCalculator.get_business_days_in_range
      rw [if_neg (by omega)]
      rw [rangeLoop_eq]
      rfl
    · unfold BusinessDayCalculator.count_business_days
      rw [if_neg (by omega)]
      rw [countLoop_eq, rangeLoop_eq]
      rfl
    · exact List.Pairwise.sublist (List.filter_sublist _) (dayInterval_pairwise f t)

theorem C4_range_functions_witness :
    ((BusinessDayCalculator.ofHolidays []).count_business_days 738893 738897
      = Except.ok ((dayInterval 738893 738897).filter
          (fun d => (BusinessDayCalculator.ofHolidays []).is_business_day d)).length) ∧
    ((∃ msg, (BusinessDayCalculator.ofHolidays []).count_business_days 5 4
      = Except.error msg) ↔ (5:Int) > 4) :=
  ⟨(((C4_range_functions_spec [] 738893 738897).2.2 (by decide)).2.1),
   (C4_range_functions_spec [] 5 4).1⟩

/-- C5: `get_next_business_day from` is the chronologically smallest business day
strictly after `from` (never `from` itself), and `get_previous_business_day from`
is the largest business day strictly before `from`. -/
theorem C5_next_previous_spec (hs : List Holiday) (d : Int) :
    ((BusinessDayCalculator.ofHolidays hs).is_business_day
        ((BusinessDayCalculator.ofHolidays hs).get_next_business_day d) = true ∧
      d < (BusinessDayCalculator.ofHolidays hs).get_next_business_day d ∧
      (∀ z, d < z → (BusinessDayCalculator.ofHolidays hs).is_business_day z = true →
        (BusinessDayCalculator.ofHolidays hs).get_next_business_day d ≤ z)) ∧
    ((BusinessDayCalculator.ofHolidays hs).is_business_day
        ((BusinessDayCalculator.ofHolidays hs).get_previous_business_day d) = true ∧
      (BusinessDayCalculator.ofHolidays hs).get_previous_business_day d < d ∧
      (∀ z, z < d → (BusinessDayCalculator.ofHolidays hs).is_business_day z = true →
        z ≤ (BusinessDayCalculator.ofHolidays hs).get_previous_business_day d)) :=
  ⟨get_next_spec _ d, get_previous_spec _ d⟩

theorem C5_next_previous_witness :
    ((BusinessDayCalculator.ofHolidays clusterHolidays).is_business_day
        ((BusinessDayCalculator.ofHolidays clusterHolidays).get_next_business_day 739142)
      = true) ∧
    (739142 < (BusinessDayCalculator.ofHolidays clusterHolidays).get_next_business_day 739142) ∧
    ((BusinessDayCalculator.ofHolidays clusterHolidays).get_next_business_day 739142 ≤ 739148) :=
  ⟨(C5_next_previous_spec clusterHolidays 739142).1.1,
   (C5_next_previous_spec clusterHolidays 739142).1.2.1,
   (C5_next_previous_spec clusterHolidays 739142).1.2.2 739148 (by decide) (by decide)⟩

/-- C8: starting from a business day `d`, adding `n` business days and then `-n`
business days returns exactly `d`, for every integer `n`. -/
theorem C8_add_roundtrip (hs : List Holiday) (d n : Int)
    (hd : (BusinessDayCalculator.ofHolidays hs).is_business_day d = true) :
    (BusinessDayCalculator.ofHolidays hs).add_business_days
      ((BusinessDayCalculator.ofHolidays hs).add_business_days d n) (-n) = d := by
  rcases lt_trichotomy n 0 with hn | hn | hn
  · rw [add_neg_eq _ d n hn, add_pos_eq _ _ (-n) (by omega)]
    rw [show (-n).natAbs = n.natAbs from by omega]
    exact nextIter_prevIter _ n.natAbs d hd
  · subst hn
    simp [BusinessDayCalculator.add_business_days]
  · rw [add_pos_eq _ d n hn, add_neg_eq _ _ (-n) (by omega)]
    rw [show (-n).natAbs = n.natAbs from by omega]
    exact prevIter_nextIter _ n.natAbs d hd

theorem C8_add_roundtrip_witness :
    (BusinessDayCalculator.ofHolidays [sampleHoliday]).add_business_days
      ((BusinessDayCalculator.ofHolidays [sampleHoliday]).add_business_days 738887 2) (-2)
      = 738887 :=
  C8_add_roundtrip [sampleHoliday] 738887 2 (by decide)

/-- C9: `add_business_days d 0` returns `d` unchanged for every date `d`,
whether or not `d` is a business day. -/
theorem C9_add_zero (hs : List Holiday) (d : Int) :
    (BusinessDayCalculator.ofHolidays hs).add_business_days d 0 = d := by
  unfold BusinessDayCalculator.add_business_days
  rw [if_pos rfl]

/-- C10: the one-day stepping loops of `get_next_business_day`,
`get_previous_business_day` and `add_business_days` always terminate: their
fuel-limited mirrors succeed for some finite fuel and compute the same total
functions. -/
theorem C10_loops_terminate (hs : List Holiday) (d : Int) :
    (∃ f, fuelSearch (BusinessDayCalculator.ofHolidays hs) 1 f (add_days d 1)
      = some ((BusinessDayCalculator.ofHolidays hs).get_next_business_day d)) ∧
    (∃ f, fuelSearch (BusinessDayCalculator.ofHolidays hs) (-1) f (add_days d (-1))
      = some ((BusinessDayCalculator.ofHolidays hs).get_previous_business_day d)) ∧
    (∀ n : Int, ∃ f, fuelAdd (BusinessDayCalculator.ofHolidays hs)
        (if n > 0 then 1 else -1) f d n.natAbs
      = some ((BusinessDayCalculator.ofHolidays hs).add_business_days d n)) := by
  refine ⟨?_, ?_, ?_⟩
  · obtain ⟨f, hf⟩ := fuelSearch_ex (BusinessDayCalculator.ofHolidays hs) 1 (Or.inl rfl)
      _ (add_days d 1) rfl
    exact ⟨f, hf⟩
  · obtain ⟨f, hf⟩ := fuelSearch_ex (BusinessDayCalculator.ofHolidays hs) (-1) (Or.inr rfl)
      _ (add_days d (-1)) rfl
    exact ⟨f, hf⟩
  · intro n
    rcases lt_trichotomy n 0 with hn | hn | hn
    · obtain ⟨f, hf⟩ := fuelAdd_ex (BusinessDayCalculator.ofHolidays hs) (-1) (Or.inr rfl)
        n.natAbs d
      refine ⟨f, ?_⟩
      rw [show (if n > 0 then (1:Int) else -1) = -1 from if_neg (by omega), hf]
      unfold BusinessDayCalculator.add_business_days
      rw [if_neg (by omega), if_neg (by omega)]
    · subst hn
      refine ⟨1, ?_⟩
      simp [fuelAdd, BusinessDayCalculator.add_business_days]
    · obtain ⟨f, hf⟩ := fuelAdd_ex (BusinessDayCalculator.ofHolidays hs) 1 (Or.inl rfl)
        n.natAbs d
      refine ⟨f, ?_⟩
      rw [show (if n > 0 then (1:Int) else -1) = 1 from if_pos (by omega), hf]
      unfold BusinessDayCalculator.add_business_days
      rw [if_neg (by omega), if_pos (by omega)]

/-- C2: `get(year)` misses (incrementing `misses`) when no entry is stored; a
stored entry with `now > expiresAt` is deleted and counted as a miss; otherwise
the hit counter is incremented and the stored list is returned unmodified — in
particular `get` right after `set` returns the stored list until `expiresAt`
passes. -/
theorem C2_cache_get_spec (c : SmartCache) (now y : Int) :
    (c.store.lookup (yearKey y) = none →
      c.get now y = (none, { c with misses := c.misses + 1 })) ∧
    (∀ e, c.store.lookup (yearKey y) = some e → now > e.expires_at →
      c.get now y = (none, { c with store := dictErase c.store (yearKey y), misses := c.misses + 1 }) ∧
      (storeWF c → (c.get now y).2.store.lookup (yearKey y) = none)) ∧
    (∀ e, c.store.lookup (yearKey y) = some e → ¬ now > e.expires_at →
      c.get now y = (some e.data, { c with hits := c.hits + 1 })) ∧
    (∀ now0 now_year hs now1, ¬ now1 > now0 + c.get_ttl now_year y →
      ((c.set now0 now_year y hs).get now1 y).1 = some hs) := by
  refine ⟨?_, ?_, ?_, ?_⟩
  · intro h
    exact get_of_absent c now y h
  · intro e hlk hexp
    refine ⟨get_of_expired c now y e hlk hexp, ?_⟩
    intro hwf
    rw [get_of_expired c now y e hlk hexp]
    exact lookup_dictErase_self c.store (yearKey y) hwf
  · intro e hlk hexp
    exact get_of_ready c now y e hlk hexp
  · intro now0 now_year hs now1 hfresh
    have hlk : (c.set now0 now_year y hs).store.lookup (yearKey y)
        = some (CacheEntry.mk hs (now0 + c.get_ttl now_year y)) := by
      unfold SmartCache.set
      exact lookup_dictInsert_self c.store (yearKey y) _
    rw [get_of_ready _ now1 y _ hlk hfresh]

theorem C2_cache_get_witness :
    ((SmartCache.mk [] 0 0 none).get 0 2024
      = (none, SmartCache.mk [] 0 1 none)) ∧
    (((SmartCache.mk [] 0 0 none).set 0 2024 2024 [sampleHoliday]).get 100 2024).1
      = some [sampleHoliday] :=
  ⟨(C2_cache_get_spec (SmartCache.mk [] 0 0 none) 0 2024).1 rfl,
   (C2_cache_get_spec (SmartCache.mk [] 0 0 none) 100 2024).2.2.2 0 2024 [sampleHoliday] 100
     (by decide)⟩

/-- C3: the TTL used by `set` is the configured override when present;
otherwise it is 365 days for years strictly before the current calendar year,
1 day for the current year and 7 days for future years, and the stored entry
expires at `now + ttl`. -/
theorem C3_ttl_spec (c : SmartCache) (now now_year year : Int) (hs : List Holiday) :
    (∀ t, c.custom_ttl = some t → c.get_ttl now_year year = t) ∧
    (c.custom_ttl = none →
      (year < now_year → c.get_ttl now_year year = 365 * 86400) ∧
      (year = now_year → c.get_ttl now_year year = 86400) ∧
      (now_year < year → c.get_ttl now_year year = 7 * 86400)) ∧
    (c.set now now_year year hs).store.lookup (yearKey year)
      = some (CacheEntry.mk hs (now + c.get_ttl now_year year)) := by
  refine ⟨?_, ?_, ?_⟩
  · intro t h
    unfold SmartCache.get_ttl
    rw [h]
  · intro h
    refine ⟨?_, ?_, ?_⟩
    · intro hlt
      unfold SmartCache.get_ttl
      rw [h]
      dsimp only
      rw [if_pos hlt]
      norm_num
    · intro heq
      unfold SmartCache.get_ttl
      rw [h]
      dsimp only
      rw [if_neg (by omega), if_pos heq]
      norm_num
    · intro hgt
      unfold SmartCache.get_ttl
      rw [h]
      dsimp only
      rw [if_neg (by omega), if_neg (by omega)]
      norm_num
  · unfold SmartCache.set
    exact lookup_dictInsert_self c.store (yearKey year) _

theorem C3_ttl_witness :
    ((SmartCache.mk [] 0 0 none).get_ttl 2024 2020 = 365 * 86400) ∧
    ((SmartCache.mk [] 0 0 none).get_ttl 2024 2024 = 86400) ∧
    ((SmartCache.mk [] 0 0 none).get_ttl 2024 2026 = 7 * 86400) ∧
    ((SmartCache.mk [] 0 0 (some 42)).get_ttl 2024 1999 = 42) ∧
    (((SmartCache.mk [] 0 0 none).set 10 2024 2024 []).store.lookup (yearKey 2024)
      = some (CacheEntry.mk [] (10 + (SmartCache.mk [] 0 0 none).get_ttl 2024 2024))) :=
  ⟨((C3_ttl_spec (SmartCache.mk [] 0 0 none) 0 2024 2020 []).2.1 rfl).1 (by decide),
   ((C3_ttl_spec (SmartCache.mk [] 0 0 none) 0 2024 2024 []).2.1 rfl).2.1 rfl,
   ((C3_ttl_spec (SmartCache.mk [] 0 0 none) 0 2024 2026 []).2.1 rfl).2.2 (by decide),
   (C3_ttl_spec (SmartCache.mk [] 0 0 (some 42)) 0 2024 1999 []).1 42 rfl,
   (C3_ttl_spec (SmartCache.mk [] 0 0 none) 10 2024 2024 []).2.2⟩

/-- C6 counterexample: cache exactly one spanned year (2024) with an *empty*
holiday list; the year is present and unexpired, yet `get_range` returns
nothing (Python's `if not cached` treats `[]` as falsy), where the claim as
stated promises the (empty) filtered holiday list. Ordinals 738895 and 738905
are 2024-01-10 and 2024-01-20. -/
theorem C6_get_range_counterexample :
    spannedYears 738895 738905 = [2024] ∧
    ((SmartCache.set (SmartCache.mk [] 0 0 none) 0 2024 2024 []).store.lookup (yearKey 2024)
      = some (CacheEntry.mk [] 86400)) ∧
    ¬ (0:Int) > (86400:Int) ∧
    ((SmartCache.set (SmartCache.mk [] 0 0 none) 0 2024 2024 []).get_range 0 738895 738905).1
      = none := by
  refine ⟨by decide, by decide, by decide, by decide⟩

/-- C6 (amended): if every year spanned by `[fromDate, toDate]` is present,
unexpired **and nonempty** in the cache, `get_range` returns exactly the cached
holidays whose `date` string lies within `[fromStr, toStr]` (lexicographic
string comparison); otherwise — including when some spanned year is cached with
an empty holiday list — it returns nothing. -/
theorem C6_get_range_amended (c : SmartCache) (now fd td : Int) :
    ((∀ y ∈ spannedYears fd td, yearReady c now y) →
      (c.get_range now fd td).1
        = some ((((spannedYears fd td).map (fun y => dataOf c y)).flatten).filter
            (inRangeStr (format_date fd) (format_date td)))) ∧
    ((∃ y ∈ spannedYears fd td, ¬ yearReady c now y) →
      (c.get_range now fd td).1 = none) :=
  get_range_chars c now fd td

theorem C6_get_range_amended_witness :
    ((SmartCache.set (SmartCache.mk [] 0 0 none) 0 2024 2024 [sampleHoliday]).get_range
        0 738895 738905).1
      = some ((((spannedYears 738895 738905).map
          (fun y => dataOf (SmartCache.set (SmartCache.mk [] 0 0 none) 0 2024 2024
            [sampleHoliday]) y)).flatten).filter
        (inRangeStr (format_date 738895) (format_date 738905))) :=
  (C6_get_range_amended (SmartCache.set (SmartCache.mk [] 0 0 none) 0 2024 2024
      [sampleHoliday]) 0 738895 738905).1 (by
    intro y hy
    rw [show spannedYears 738895 738905 = [2024] from by decide] at hy
    rw [List.mem_singleton] at hy
    subst hy
    exact ⟨CacheEntry.mk [sampleHoliday] 86400, by decide, by decide, by decide⟩)

/-- C7 counterexample: an entry whose `expiresAt` equals `now` is *not*
removed by `prune` (the code deletes only `now > expiresAt`), so after `prune`
an entry with `expiresAt <= now` remains, contradicting the claim's boundary. -/
theorem C7_prune_counterexample :
    ((SmartCache.mk [("year:2020", CacheEntry.mk [] 5)] 0 0 none).prune 5).1 = 0 ∧
    (((SmartCache.mk [("year:2020", CacheEntry.mk [] 5)] 0 0 none).prune 5).2.store.lookup
        "year:2020" = some (CacheEntry.mk [] 5)) ∧
    ((5:Int) ≤ (5:Int)) := by
  refine ⟨by decide, by decide, by decide⟩

/-- C7 (amended): on a unique-key store, `prune` deletes exactly the entries
with `now > expiresAt` and returns their count, leaving `hits` and `misses`
unchanged; afterwards no remaining entry has `expiresAt < now` (strictly —
an entry with `expiresAt = now` survives). -/
theorem C7_prune_amended (c : SmartCache) (now : Int) (hwf : storeWF c) :
    (c.prune now).1 = (c.store.filter (fun kv => now > kv.2.expires_at)).length ∧
    (c.prune now).2.store = c.store.filter (fun kv => !(decide (now > kv.2.expires_at))) ∧
    (c.prune now).2.hits = c.hits ∧
    (c.prune now).2.misses = c.misses ∧
    (∀ kv ∈ (c.prune now).2.store, ¬ kv.2.expires_at < now) := by
  obtain ⟨h1, h2, h3, h4⟩ := prune_spec c now hwf
  refine ⟨h1, h2, h3, h4, ?_⟩
  intro kv hkv
  rw [h2] at hkv
  have := List.of_mem_filter hkv
  simp only [Bool.not_eq_true', decide_eq_false_iff_not] at this
  exact this

theorem C7_prune_amended_witness :
    ((SmartCache.mk [("year:2020", CacheEntry.mk [] 5)] 0 0 none).prune 6).1 = 1 ∧
    ((SmartCache.mk [("year:2020", CacheEntry.mk [] 5)] 0 0 none).prune 6).2.store = [] :=
  ⟨(C7_prune_amended (SmartCache.mk [("year:2020", CacheEntry.mk [] 5)] 0 0 none) 6
      (by unfold storeWF; decide)).1.trans (by decide),
   (C7_prune_amended (SmartCache.mk [("year:2020", CacheEntry.mk [] 5)] 0 0 none) 6
      (by unfold storeWF; decide)).2.1.trans (by decide)⟩

end Hudy
